import Mathlib

/-!
Verification development for the incremental JSON writer
(`src/library/json/writer/json.h`, namespace `NJsonWriter`).

The repository ships only the header: the inline members (`KeyExpected`,
the type-state context classes, the default arguments) are embedded from
the source directly; the out-of-line members of `TBuf` (`BeginValue`,
`CheckAndPop`, `EscapedWriteChar`, `WriteFloatImpl`, `State`/`Reset`,
`Str`/`FlushTo`) are modelled from the specification, as marked on each
definition.
-/

namespace NJsonWriter

/-- Embedded from the source: `enum EJsonEntity` — the kind of a
currently-open nesting level. -/
inductive EJsonEntity : Type
  | JE_OUTER_SPACE
  | JE_LIST
  | JE_OBJECT
  | JE_PAIR
deriving DecidableEq, Repr

/-- Embedded from the source: `enum EHtmlEscapeMode` — the four escaping
policies for `<`, `>`, `&`, `/` inside string literals. -/
inductive EHtmlEscapeMode : Type
  | HEM_ESCAPE_HTML      -- &lt; &gt; &amp; \/
  | HEM_DONT_ESCAPE_HTML -- < > & \/
  | HEM_RELAXED          -- < > & /
  | HEM_UNSAFE           -- < > & /
deriving DecidableEq, Repr

/-- Embedded from the source: `class TError : public yexception` — the one
error kind raised on grammar/protocol violations. -/
inductive TError : Type
  | grammarError
deriving DecidableEq, Repr

/-- The mutable protocol state of `TBuf`: the fields `Stack`, `NeedComma`,
`NeedNewline` (the stack top is the head of the list; the bottom of a
well-formed stack is `JE_OUTER_SPACE` as set up by the constructor). -/
structure WState : Type where
  stack : List EJsonEntity
  needComma : Bool
  needNewline : Bool
deriving DecidableEq, Repr

/-- The constructor's protocol state: stack `[JE_OUTER_SPACE]`, no pending
separators. -/
def initState : WState := ⟨[.JE_OUTER_SPACE], false, false⟩

/-- Output tokens.  The writer's byte stream is abstracted at the JSON
token level: payloads carry the literal text of scalar and key tokens;
whitespace/indentation (which never affects syntactic validity) is not
modelled. -/
inductive Tok : Type
  | lbrack
  | rbrack
  | lbrace
  | rbrace
  | comma
  | colon
  | keyTok (lit : String)
  | scalarTok (lit : String)
deriving DecidableEq, Repr

/-- The grammar-checked mutating operations of `TBuf`.  `writeValue`
covers all scalar writes (`WriteString`, `WriteInt`, `WriteLongLong`,
`WriteULongLong`, `WriteBool`, `WriteNull`, finite `WriteFloat`/
`WriteDouble`), with the rendered token text as payload; `writeKey`
covers the `WriteKey` variants. -/
inductive Op : Type
  | writeValue (lit : String)
  | beginList
  | endList
  | beginObject
  | writeKey (k : String)
  | endObject
deriving DecidableEq, Repr

/-- Modelled from the spec: `EndValue` — after a complete value, a
pending `JE_PAIR` (the key's value slot) is popped back to its
`JE_OBJECT`. -/
def endValueStack : List EJsonEntity → List EJsonEntity
  | .JE_PAIR :: rest => rest
  | s => s

/-- Modelled from the spec: the comma bookkeeping of `WriteComma` —
before any value or key token except the first inside a construct, a
separating comma is emitted, recorded by the `NeedComma` flag. -/
def commaToks (s : WState) : List Tok :=
  if s.needComma then [.comma] else []

/-- The result of one writer call: the exception raised (if any), the
protocol state the call left behind, and the tokens it emitted. -/
structure StepRes : Type where
  err : Option TError
  st : WState
  out : List Tok
deriving DecidableEq, Repr

/-- Modelled from the spec: one grammar-checked `TBuf` operation.
Checks (`BeginValue`'s key-expected check, `CheckAndPop`'s top-of-stack
check) are performed before any byte is emitted or any state mutated, so
a failing call returns the input state unchanged with no output. -/
def step : Op → WState → StepRes
  | .writeValue lit, s =>
    if s.stack.head? = some .JE_OBJECT then ⟨some .grammarError, s, []⟩
    else ⟨none, ⟨endValueStack s.stack, true, true⟩, commaToks s ++ [.scalarTok lit]⟩
  | .beginList, s =>
    if s.stack.head? = some .JE_OBJECT then ⟨some .grammarError, s, []⟩
    else ⟨none, ⟨.JE_LIST :: s.stack, false, true⟩, commaToks s ++ [.lbrack]⟩
  | .endList, s =>
    match s.stack with
    | .JE_LIST :: rest => ⟨none, ⟨endValueStack rest, true, true⟩, [.rbrack]⟩
    | _ => ⟨some .grammarError, s, []⟩
  | .beginObject, s =>
    if s.stack.head? = some .JE_OBJECT then ⟨some .grammarError, s, []⟩
    else ⟨none, ⟨.JE_OBJECT :: s.stack, false, true⟩, commaToks s ++ [.lbrace]⟩
  | .writeKey k, s =>
    if s.stack.head? = some .JE_OBJECT then
      ⟨none, ⟨.JE_PAIR :: s.stack, false, true⟩, commaToks s ++ [.keyTok k, .colon]⟩
    else ⟨some .grammarError, s, []⟩
  | .endObject, s =>
    match s.stack with
    | .JE_OBJECT :: rest => ⟨none, ⟨endValueStack rest, true, true⟩, [.rbrace]⟩
    | _ => ⟨some .grammarError, s, []⟩

/-- Run a sequence of operations; `none` as soon as any call raises. -/
def runOps : List Op → WState → Option (WState × List Tok)
  | [], s => some (s, [])
  | op :: ops, s =>
    match step op s with
    | ⟨some _, _, _⟩ => none
    | ⟨none, s1, t⟩ =>
      match runOps ops s1 with
      | none => none
      | some (s2, t2) => some (s2, t ++ t2)

/-! ### A syntactic-validity checker for JSON token streams

An independent deterministic pushdown acceptor for the JSON grammar over
`Tok`, used as the yardstick of "syntactically valid JSON": brackets
balanced and nested, exactly one comma between siblings, no trailing
comma, every key immediately followed by a colon and exactly one value. -/

/-- Open-construct frames of the validity checker. -/
inductive Frame : Type
  | fList
  | fObj
deriving DecidableEq, Repr

/-- States of the validity checker. -/
inductive PState : Type
  | pVal (stk : List Frame)        -- a value is required
  | pValOrClose (stk : List Frame) -- just after `[` : value or `]`
  | pKeyOrClose (stk : List Frame) -- just after `{` : key or `}`
  | pKeyReq (stk : List Frame)     -- just after a comma in an object
  | pColon (stk : List Frame)      -- just after a key
  | pDone (stk : List Frame)       -- a complete value at this level
deriving DecidableEq, Repr

/-- One token transition of the validity checker. -/
def pstep : PState → Tok → Option PState
  | .pVal stk, .scalarTok _ => some (.pDone stk)
  | .pVal stk, .lbrack => some (.pValOrClose (.fList :: stk))
  | .pVal stk, .lbrace => some (.pKeyOrClose (.fObj :: stk))
  | .pValOrClose stk, .scalarTok _ => some (.pDone stk)
  | .pValOrClose stk, .lbrack => some (.pValOrClose (.fList :: stk))
  | .pValOrClose stk, .lbrace => some (.pKeyOrClose (.fObj :: stk))
  | .pValOrClose (.fList :: rest), .rbrack => some (.pDone rest)
  | .pKeyOrClose stk, .keyTok _ => some (.pColon stk)
  | .pKeyOrClose (.fObj :: rest), .rbrace => some (.pDone rest)
  | .pKeyReq stk, .keyTok _ => some (.pColon stk)
  | .pColon stk, .colon => some (.pVal stk)
  | .pDone (.fList :: rest), .comma => some (.pVal (.fList :: rest))
  | .pDone (.fList :: rest), .rbrack => some (.pDone rest)
  | .pDone (.fObj :: rest), .comma => some (.pKeyReq (.fObj :: rest))
  | .pDone (.fObj :: rest), .rbrace => some (.pDone rest)
  | _, _ => none

/-- Run the validity checker over a token stream. -/
def prun : PState → List Tok → Option PState
  | p, [] => some p
  | p, t :: ts =>
    match pstep p t with
    | none => none
    | some p1 => prun p1 ts

/-- A token stream is syntactically valid JSON iff the checker consumes
it completely, starting with one value required and ending with that
value complete and no construct open. -/
def validJson (ts : List Tok) : Prop :=
  prun (.pVal []) ts = some (.pDone [])

instance (ts : List Tok) : Decidable (validJson ts) := by
  unfold validJson; infer_instance

/-! ### Simulation: the writer's protocol state tracks the checker -/

/-- Stacks reachable by the writer: `JE_OUTER_SPACE` exactly at the
bottom, and `JE_PAIR` always directly above its `JE_OBJECT`. -/
inductive WfStack : List EJsonEntity → Prop
  | outer : WfStack [.JE_OUTER_SPACE]
  | list {s : List EJsonEntity} : WfStack s → WfStack (.JE_LIST :: s)
  | obj {s : List EJsonEntity} : WfStack s → WfStack (.JE_OBJECT :: s)
  | pair {s : List EJsonEntity} : WfStack (.JE_OBJECT :: s) →
      WfStack (.JE_PAIR :: .JE_OBJECT :: s)

/-- The checker frames corresponding to a writer stack: open lists and
objects, with `JE_PAIR` and the bottom `JE_OUTER_SPACE` contributing
nothing. -/
def framesOf (stk : List EJsonEntity) : List Frame :=
  stk.filterMap fun e =>
    match e with
    | .JE_LIST => some .fList
    | .JE_OBJECT => some .fObj
    | _ => none

/-- The checker state corresponding to a writer protocol state. -/
def trans (s : WState) : Option PState :=
  match s.stack with
  | [.JE_OUTER_SPACE] =>
      some (if s.needComma then .pDone [] else .pVal [])
  | .JE_LIST :: rest =>
      some (if s.needComma then .pDone (.fList :: framesOf rest)
            else .pValOrClose (.fList :: framesOf rest))
  | .JE_OBJECT :: rest =>
      some (if s.needComma then .pDone (.fObj :: framesOf rest)
            else .pKeyOrClose (.fObj :: framesOf rest))
  | .JE_PAIR :: rest =>
      if s.needComma then none else some (.pVal (framesOf rest))
  | _ => none

theorem endValueStack_wf {s : List EJsonEntity} (h : WfStack s) :
    WfStack (endValueStack s) := by
  cases h with
  | outer => exact .outer
  | list h1 => exact .list h1
  | obj h1 => exact .obj h1
  | pair h1 => exact h1

theorem step_wf {op : Op} {s s1 : WState} {t : List Tok}
    (hwf : WfStack s.stack) (hstep : step op s = ⟨none, s1, t⟩) :
    WfStack s1.stack := by
  obtain ⟨stk, nc, nn⟩ := s
  cases op with
  | writeValue lit =>
    simp only [step] at hstep
    split at hstep
    · simp at hstep
    · simp only [StepRes.mk.injEq] at hstep
      obtain ⟨-, h1, -⟩ := hstep
      subst h1
      exact endValueStack_wf hwf
  | beginList =>
    simp only [step] at hstep
    split at hstep
    · simp at hstep
    · simp only [StepRes.mk.injEq] at hstep
      obtain ⟨-, h1, -⟩ := hstep
      subst h1
      exact .list hwf
  | endList =>
    simp only [step] at hstep
    split at hstep
    · simp only [StepRes.mk.injEq] at hstep
      obtain ⟨-, h1, -⟩ := hstep
      subst h1
      cases hwf with
      | list h2 => exact endValueStack_wf h2
    · simp at hstep
  | beginObject =>
    simp only [step] at hstep
    split at hstep
    · simp at hstep
    · simp only [StepRes.mk.injEq] at hstep
      obtain ⟨-, h1, -⟩ := hstep
      subst h1
      exact .obj hwf
  | writeKey k =>
    simp only [step] at hstep
    split at hstep
    · simp only [StepRes.mk.injEq] at hstep
      obtain ⟨-, h1, -⟩ := hstep
      subst h1
      rename_i hobj
      cases hwf with
      | outer => simp at hobj
      | list h2 => simp at hobj
      | obj h2 => exact .pair (.obj h2)
      | pair h2 => simp at hobj
    · simp at hstep
  | endObject =>
    simp only [step] at hstep
    split at hstep
    · simp only [StepRes.mk.injEq] at hstep
      obtain ⟨-, h1, -⟩ := hstep
      subst h1
      cases hwf with
      | obj h2 => exact endValueStack_wf h2
    · simp at hstep

theorem prun_append (p : PState) (t1 t2 : List Tok) :
    prun p (t1 ++ t2) = (prun p t1).bind (fun q => prun q t2) := by
  induction t1 generalizing p with
  | nil => simp [prun]
  | cons a ts ih =>
    simp only [List.cons_append, prun]
    rcases h : pstep p a with - | p1 <;> simp [h, ih]

theorem step_sim {op : Op} {s s1 : WState} {t : List Tok}
    (hwf : WfStack s.stack) (hts : (trans s).isSome = true)
    (hnd : ¬(s.stack = [.JE_OUTER_SPACE] ∧ s.needComma = true))
    (hstep : step op s = ⟨none, s1, t⟩) :
    (trans s).bind (fun q => prun q t) = trans s1 ∧
      (trans s1).isSome = true := by
  obtain ⟨stk, nc, nn⟩ := s
  cases op with
  | writeValue lit =>
    simp only [step] at hstep
    split at hstep
    · simp at hstep
    · simp only [StepRes.mk.injEq] at hstep
      obtain ⟨-, h1, h2⟩ := hstep
      subst h1; subst h2
      cases hwf <;> cases nc <;>
        simp_all [trans, framesOf, commaToks, endValueStack, prun, pstep]
  | beginList =>
    simp only [step] at hstep
    split at hstep
    · simp at hstep
    · simp only [StepRes.mk.injEq] at hstep
      obtain ⟨-, h1, h2⟩ := hstep
      subst h1; subst h2
      cases hwf <;> cases nc <;>
        simp_all [trans, framesOf, commaToks, endValueStack, prun, pstep]
  | endList =>
    simp only [step] at hstep
    split at hstep
    · simp only [StepRes.mk.injEq] at hstep
      obtain ⟨-, h1, h2⟩ := hstep
      subst h1; subst h2
      cases hwf with
      | list h3 =>
        cases h3 <;> cases nc <;>
          simp_all [trans, framesOf, commaToks, endValueStack, prun, pstep]
    · simp at hstep
  | beginObject =>
    simp only [step] at hstep
    split at hstep
    · simp at hstep
    · simp only [StepRes.mk.injEq] at hstep
      obtain ⟨-, h1, h2⟩ := hstep
      subst h1; subst h2
      cases hwf <;> cases nc <;>
        simp_all [trans, framesOf, commaToks, endValueStack, prun, pstep]
  | writeKey k =>
    simp only [step] at hstep
    split at hstep
    · simp only [StepRes.mk.injEq] at hstep
      obtain ⟨-, h1, h2⟩ := hstep
      subst h1; subst h2
      rename_i hobj
      cases hwf with
      | outer => simp at hobj
      | list h3 => simp at hobj
      | obj h3 =>
        cases nc <;>
          simp_all [trans, framesOf, commaToks, prun, pstep]
      | pair h3 => simp at hobj
    · simp at hstep
  | endObject =>
    simp only [step] at hstep
    split at hstep
    · simp only [StepRes.mk.injEq] at hstep
      obtain ⟨-, h1, h2⟩ := hstep
      subst h1; subst h2
      cases hwf with
      | obj h3 =>
        cases h3 <;> cases nc <;>
          simp_all [trans, framesOf, commaToks, endValueStack, prun, pstep]
    · simp at hstep

/-- A run never takes a step out of the completed-top-level state
(stack back to `[JE_OUTER_SPACE]` with a value already written): the
sequence builds at most one top-level value and stops once it is
complete. -/
def midOk : WState → List Op → Bool
  | _, [] => true
  | s, op :: ops =>
    !(decide (s.stack = [EJsonEntity.JE_OUTER_SPACE]) && s.needComma) &&
      (match step op s with
       | ⟨none, s1, _⟩ => midOk s1 ops
       | ⟨some _, _, _⟩ => true)

theorem runOps_sim (ops : List Op) (s : WState) (s2 : WState)
    (t : List Tok) (hwf : WfStack s.stack) (hts : (trans s).isSome = true)
    (hrun : runOps ops s = some (s2, t)) (hmid : midOk s ops = true) :
    (trans s).bind (fun q => prun q t) = trans s2 ∧
      (trans s2).isSome = true ∧ WfStack s2.stack := by
  induction ops generalizing s t with
  | nil =>
    simp only [runOps, Option.some.injEq, Prod.mk.injEq] at hrun
    obtain ⟨h1, h2⟩ := hrun
    subst h1; subst h2
    refine ⟨?_, hts, hwf⟩
    rcases h : trans s with - | q
    · rw [h] at hts; simp at hts
    · simp [prun]
  | cons op ops ih =>
    rcases hst : step op s with ⟨err, sm, tm⟩
    cases err with
    | some e =>
      simp only [runOps, hst] at hrun
      exact absurd hrun (by simp)
    | none =>
      simp only [runOps, hst] at hrun
      rcases hr2 : runOps ops sm with - | ⟨s3, t2⟩
      · rw [hr2] at hrun; simp at hrun
      · rw [hr2] at hrun
        simp only [Option.some.injEq, Prod.mk.injEq] at hrun
        obtain ⟨h1, h2⟩ := hrun
        subst h1; subst h2
        simp only [midOk, hst, Bool.and_eq_true, Bool.not_eq_true'] at hmid
        obtain ⟨hnd, hmid2⟩ := hmid
        have hndP : ¬(s.stack = [.JE_OUTER_SPACE] ∧ s.needComma = true) := by
          rintro ⟨ha, hb⟩
          simp [ha, hb] at hnd
        obtain ⟨hsim1, hsome⟩ := step_sim hwf hts hndP hst
        have hwf1 := step_wf hwf hst
        obtain ⟨ih1, ih2, ih3⟩ := ih sm t2 hwf1 hsome hr2 hmid2
        refine ⟨?_, ih2, ih3⟩
        have hassoc : ∀ (x : Option PState) (f g : PState → Option PState),
            (x.bind f).bind g = x.bind (fun q => (f q).bind g) := by
          intro x f g; cases x <;> simp
        have hfun : ((trans s).bind fun q => prun q (tm ++ t2)) =
            ((trans s).bind fun q => prun q tm).bind fun q => prun q t2 := by
          rw [hassoc]
          exact congrArg _ (funext fun q => prun_append q tm t2)
        rw [hfun, hsim1]
        exact ih1

/-- C1 (counterexample): the claim "for every sequence of writer
operations in which no call raises an error, the byte stream produced
is syntactically valid JSON" is false as stated: `BeginList` alone is
accepted and produces the unbalanced `[`, and two top-level scalar
writes are accepted and produce `1,2`, which is not one JSON value. -/
theorem c1_output_not_always_valid :
    (runOps [Op.beginList] initState =
        some (⟨[.JE_LIST, .JE_OUTER_SPACE], false, true⟩, [Tok.lbrack]) ∧
      ¬validJson [Tok.lbrack]) ∧
    (runOps [Op.writeValue "1", Op.writeValue "2"] initState =
        some (⟨[.JE_OUTER_SPACE], true, true⟩,
          [Tok.scalarTok "1", Tok.comma, Tok.scalarTok "2"]) ∧
      ¬validJson [Tok.scalarTok "1", Tok.comma, Tok.scalarTok "2"]) := by
  exact ⟨⟨by decide, by decide⟩, ⟨by decide, by decide⟩⟩

/-- C1 (amended): for every sequence of writer operations in which no
call raises an error, which never continues past a completed top-level
value (`midOk`), and which ends with the stack back at
`[JE_OUTER_SPACE]` having written a value (so the document is
complete), the emitted token stream is syntactically valid JSON:
brackets balanced and correctly nested, exactly one comma between
siblings, no trailing comma, and every key immediately followed by
exactly one value — as checked by the independent acceptor
`validJson`. -/
theorem c1_complete_runs_emit_valid_json (ops : List Op) (s : WState)
    (t : List Tok) (hrun : runOps ops initState = some (s, t))
    (hmid : midOk initState ops = true)
    (hstk : s.stack = [.JE_OUTER_SPACE]) (hnc : s.needComma = true) :
    validJson t := by
  have h0 : WfStack initState.stack := .outer
  have h1 : (trans initState).isSome = true := by decide
  obtain ⟨hsim, -, -⟩ := runOps_sim ops initState s t h0 h1 hrun hmid
  have h2 : trans initState = some (.pVal []) := by decide
  rw [h2] at hsim
  have hsim2 : prun (.pVal []) t = trans s := hsim
  unfold validJson
  rw [hsim2]
  obtain ⟨stk, nc, nn⟩ := s
  subst hstk; subst hnc
  simp [trans]

/-- C1 (witness): a concrete complete run — building
`{"a":1,"b":[2]}` — satisfies the hypotheses and its output is valid. -/
theorem c1_complete_runs_emit_valid_json_witness :
    validJson [Tok.lbrace, Tok.keyTok "a", Tok.colon, Tok.scalarTok "1",
      Tok.comma, Tok.keyTok "b", Tok.colon, Tok.lbrack, Tok.scalarTok "2",
      Tok.rbrack, Tok.rbrace] :=
  c1_complete_runs_emit_valid_json
    [Op.beginObject, Op.writeKey "a", Op.writeValue "1", Op.writeKey "b",
      Op.beginList, Op.writeValue "2", Op.endList, Op.endObject]
    ⟨[.JE_OUTER_SPACE], true, true⟩ _ (by decide) (by decide) rfl rfl

/-- C4: every writer operation that fails raises synchronously, emits
no tokens for that call, and leaves the protocol state (stack,
`NeedComma`, `NeedNewline`) unchanged; in particular an unmatched
`EndList`/`EndObject` (top of stack of a different kind, or nothing
open) always fails and never mutates the stack. -/
theorem c4_failing_calls_are_all_or_nothing :
    (∀ (op : Op) (s : WState), (step op s).err.isSome = true →
      (step op s).st = s ∧ (step op s).out = []) ∧
    (∀ s : WState, s.stack.head? ≠ some .JE_LIST →
      (step .endList s).err = some .grammarError ∧
        (step .endList s).st = s ∧ (step .endList s).out = []) ∧
    (∀ s : WState, s.stack.head? ≠ some .JE_OBJECT →
      (step .endObject s).err = some .grammarError ∧
        (step .endObject s).st = s ∧ (step .endObject s).out = []) := by
  refine ⟨?_, ?_, ?_⟩
  · intro op s h
    obtain ⟨stk, nc, nn⟩ := s
    cases op with
    | writeValue lit =>
      by_cases hc : stk.head? = some EJsonEntity.JE_OBJECT <;> simp_all [step]
    | beginList =>
      by_cases hc : stk.head? = some EJsonEntity.JE_OBJECT <;> simp_all [step]
    | beginObject =>
      by_cases hc : stk.head? = some EJsonEntity.JE_OBJECT <;> simp_all [step]
    | writeKey k =>
      by_cases hc : stk.head? = some EJsonEntity.JE_OBJECT <;> simp_all [step]
    | endList =>
      rcases stk with - | ⟨e, rest⟩
      · simp [step]
      · cases e <;> simp_all [step]
    | endObject =>
      rcases stk with - | ⟨e, rest⟩
      · simp [step]
      · cases e <;> simp_all [step]
  · intro s h
    obtain ⟨stk, nc, nn⟩ := s
    rcases stk with - | ⟨e, rest⟩
    · simp [step]
    · cases e <;> simp_all [step]
  · intro s h
    obtain ⟨stk, nc, nn⟩ := s
    rcases stk with - | ⟨e, rest⟩
    · simp [step]
    · cases e <;> simp_all [step]

/-- C4 (witness): `EndList` inside an open object fails with the
grammar error, changes nothing and emits nothing. -/
theorem c4_failing_calls_are_all_or_nothing_witness :
    (step .endList ⟨[.JE_OBJECT, .JE_OUTER_SPACE], false, false⟩).st =
        ⟨[.JE_OBJECT, .JE_OUTER_SPACE], false, false⟩ ∧
      (step .endList ⟨[.JE_OBJECT, .JE_OUTER_SPACE], false, false⟩).out = [] :=
  c4_failing_calls_are_all_or_nothing.1 .endList
    ⟨[.JE_OBJECT, .JE_OUTER_SPACE], false, false⟩ (by decide)

/-- Embedded from the source: `KeyExpected()` returns
`Stack.back() == JE_OBJECT` (the stack top is the head of the modelled
list); it reads the state and mutates nothing. -/
def KeyExpected (s : WState) : Bool := s.stack.head? == some .JE_OBJECT

/-- C10: for every writer state with a non-empty context stack,
`KeyExpected()` returns `true` iff the top of the stack is `JE_OBJECT`
— exactly when a `WriteKey` variant is the legal next token (the
`step` guard for `writeKey`); being a pure function of the state it
mutates nothing. -/
theorem c10_keyExpected_iff_top_object (s : WState) (e : EJsonEntity)
    (rest : List EJsonEntity) (h : s.stack = e :: rest) :
    (KeyExpected s = true ↔ e = .JE_OBJECT) ∧
      (KeyExpected s = true ↔ (step (.writeKey "k") s).err = none) := by
  constructor
  · simp [KeyExpected, h]
  · simp only [KeyExpected, h, step]
    by_cases hc : e = EJsonEntity.JE_OBJECT <;> simp [hc]

/-- C10 (witness): with an object open, a key is expected; the pattern
is applied at a concrete state. -/
theorem c10_keyExpected_iff_top_object_witness :
    (KeyExpected ⟨[.JE_OBJECT, .JE_OUTER_SPACE], false, false⟩ = true ↔
        EJsonEntity.JE_OBJECT = .JE_OBJECT) ∧
      (KeyExpected ⟨[.JE_OBJECT, .JE_OUTER_SPACE], false, false⟩ = true ↔
        (step (.writeKey "k")
            ⟨[.JE_OBJECT, .JE_OUTER_SPACE], false, false⟩).err = none) :=
  c10_keyExpected_iff_top_object ⟨[.JE_OBJECT, .JE_OUTER_SPACE], false, false⟩
    .JE_OBJECT [.JE_OUTER_SPACE] rfl

/-! ### The type-state context layer

Embedded from the source: the public method surfaces and return types of
`TValueWriter<TOutContext>`, `TValueContext`, `TAfterColonContext`,
`TPairContext` and `TBuf`.  A handle kind stands for the static type a
call site holds; a method call is "well-typed" iff the method is in
that type's surface. -/

/-- The public writer-mutating (or finalizing) methods that appear on
the context classes and on `TBuf`.  Overloads (escape-mode, float-mode)
are merged: they share the return type. -/
inductive Method : Type
  | mWriteString
  | mWriteNull
  | mWriteJsonValue
  | mWriteInt
  | mWriteLongLong
  | mWriteULongLong
  | mWriteBool
  | mUnsafeWriteValue
  | mWriteFloat
  | mWriteDouble
  | mBeginList
  | mBeginObject
  | mEndList
  | mStr
  | mWriteKey
  | mUnsafeWriteKey
  | mCompatWriteKeyWithoutQuotes
  | mUnsafeWritePair
  | mEndObject
deriving DecidableEq, Repr

/-- The static types a call site can hold while threading handles. -/
inductive HandleKind : Type
  | hValueContext      -- TValueContext
  | hAfterColonContext -- TAfterColonContext
  | hPairContext       -- TPairContext
  | hBuf               -- TBuf& (the raw writer)
deriving DecidableEq, Repr

/-- The value-writing method set of `TValueWriter<TOutContext>`
(source lines 164-197). -/
def valueMethods : List Method :=
  [.mWriteString, .mWriteNull, .mWriteJsonValue, .mWriteInt,
   .mWriteLongLong, .mWriteULongLong, .mWriteBool, .mUnsafeWriteValue,
   .mWriteFloat, .mWriteDouble]

/-- Every method of the modelled surface, in declaration order. -/
def allMethods : List Method :=
  valueMethods ++
    [.mBeginList, .mBeginObject, .mEndList, .mStr, .mWriteKey,
     .mUnsafeWriteKey, .mCompatWriteKeyWithoutQuotes, .mUnsafeWritePair,
     .mEndObject]

/-- `TValueWriter<TOutContext>`: every value write returns
`TOutContext`; `BeginList` returns `TValueContext` and `BeginObject`
returns `TPairContext` (source lines 164-200, 267-275); no other
method exists on it. -/
def valueWriterResult (out : HandleKind) : Method → Option HandleKind
  | .mWriteString => some out
  | .mWriteNull => some out
  | .mWriteJsonValue => some out
  | .mWriteInt => some out
  | .mWriteLongLong => some out
  | .mWriteULongLong => some out
  | .mWriteBool => some out
  | .mUnsafeWriteValue => some out
  | .mWriteFloat => some out
  | .mWriteDouble => some out
  | .mBeginList => some .hValueContext
  | .mBeginObject => some .hPairContext
  | _ => none

/-- The handle type each well-typed method call returns (`none` when
the method is absent from the surface, or returns no handle:
`TValueContext::Str` returns `TString`).  Transcribed from the class
declarations: `TValueContext : TValueWriter<TValueContext>` plus
`EndList → TBuf&` and `Str`; `TAfterColonContext :
TValueWriter<TPairContext>`; `TPairContext` with the `WriteKey`
variants returning `TAfterColonContext`, `UnsafeWritePair` returning
`TPairContext` and `EndObject → TBuf&`; `TBuf` with its own
declarations (lines 47-124). -/
def result : HandleKind → Method → Option HandleKind
  | .hValueContext, .mEndList => some .hBuf
  | .hValueContext, .mStr => none
  | .hValueContext, m => valueWriterResult .hValueContext m
  | .hAfterColonContext, m => valueWriterResult .hPairContext m
  | .hPairContext, .mWriteKey => some .hAfterColonContext
  | .hPairContext, .mUnsafeWriteKey => some .hAfterColonContext
  | .hPairContext, .mCompatWriteKeyWithoutQuotes => some .hAfterColonContext
  | .hPairContext, .mUnsafeWritePair => some .hPairContext
  | .hPairContext, .mEndObject => some .hBuf
  | .hPairContext, _ => none
  | .hBuf, .mEndList => some .hBuf
  | .hBuf, .mEndObject => some .hBuf
  | .hBuf, .mWriteKey => some .hAfterColonContext
  | .hBuf, .mUnsafeWriteKey => some .hAfterColonContext
  | .hBuf, .mCompatWriteKeyWithoutQuotes => some .hAfterColonContext
  | .hBuf, .mUnsafeWritePair => some .hPairContext
  | .hBuf, .mStr => none
  | .hBuf, m => valueWriterResult .hValueContext m

/-- Whether a method is offered at all by a handle type (`Str` is
offered by `TValueContext` and `TBuf` although it returns no handle). -/
def avail : HandleKind → Method → Bool
  | .hValueContext, .mEndList => true
  | .hValueContext, .mStr => true
  | .hValueContext, m => (valueWriterResult .hValueContext m).isSome
  | .hAfterColonContext, m => (valueWriterResult .hPairContext m).isSome
  | .hPairContext, .mWriteKey => true
  | .hPairContext, .mUnsafeWriteKey => true
  | .hPairContext, .mCompatWriteKeyWithoutQuotes => true
  | .hPairContext, .mUnsafeWritePair => true
  | .hPairContext, .mEndObject => true
  | .hPairContext, _ => false
  | .hBuf, _ => true

/-- A statically well-typed chain of method calls, threading the handle
returned by each call into the next. -/
def typedRun : HandleKind → List Method → Option HandleKind
  | h, [] => some h
  | h, m :: ms =>
    match result h m with
    | none => none
    | some h1 => typedRun h1 ms

/-- The grammar-checked writer operation a method performs (payloads
are representative; the stack discipline does not depend on them).
`WriteJsonValue` (bulk dump), the `Unsafe*` raw emitters and `Str` are
outside the grammar-checked core model. -/
def opOf : Method → Option Op
  | .mWriteString => some (.writeValue "s")
  | .mWriteNull => some (.writeValue "null")
  | .mWriteInt => some (.writeValue "0")
  | .mWriteLongLong => some (.writeValue "0")
  | .mWriteULongLong => some (.writeValue "0")
  | .mWriteBool => some (.writeValue "true")
  | .mWriteFloat => some (.writeValue "0")
  | .mWriteDouble => some (.writeValue "0")
  | .mBeginList => some .beginList
  | .mBeginObject => some .beginObject
  | .mEndList => some .endList
  | .mEndObject => some .endObject
  | .mWriteKey => some (.writeKey "k")
  | .mUnsafeWriteKey => some (.writeKey "k")
  | .mCompatWriteKeyWithoutQuotes => some (.writeKey "k")
  | _ => none

/-- The runtime protocol states under which a call site can hold a
handle of each static type. -/
def handleInv : HandleKind → WState → Prop
  | .hValueContext, s =>
      s.stack.head? = some .JE_OUTER_SPACE ∨ s.stack.head? = some .JE_LIST
  | .hAfterColonContext, s =>
      s.stack.head? = some .JE_PAIR ∧ s.stack.tail.head? = some .JE_OBJECT
  | .hPairContext, s => s.stack.head? = some .JE_OBJECT
  | .hBuf, _ => True

/-- C2 (counterexample): after beginning a nested list or object from an
`TAfterColonContext`, closing that construct returns `TBuf&` — the
unrestricted raw writer — not a `TPairContext`, so the static "key is
followed by exactly one value" guarantee is not preserved through
nesting: the well-typed chain `BeginList; EndList` from an
after-colon handle ends holding `TBuf`, which offers methods (for
example `EndList`) that `TPairContext` does not. -/
theorem c2_nested_close_returns_buf_not_paircontext :
    result .hAfterColonContext .mBeginList = some .hValueContext ∧
    result .hValueContext .mEndList = some .hBuf ∧
    result .hAfterColonContext .mBeginObject = some .hPairContext ∧
    result .hPairContext .mEndObject = some .hBuf ∧
    (HandleKind.hBuf ≠ .hPairContext) ∧
    typedRun .hAfterColonContext [.mBeginList, .mEndList] = some .hBuf ∧
    avail .hBuf .mEndList = true ∧ avail .hPairContext .mEndList = false := by
  decide

/-- C2 (amended): `TAfterColonContext` offers exactly the value-writing
operations plus `BeginList`/`BeginObject`; writing a scalar value
through it returns a `TPairContext`, so through the handle layer a key
is immediately followed by exactly one value.  When the value is a
nested list or object begun via `BeginList`/`BeginObject`, the nested
construct's own context types are returned, and closing that construct
returns the plain `TBuf`, not a `TPairContext`. -/
theorem c2_afterColonContext_surface :
    allMethods.filter (fun m => avail .hAfterColonContext m) =
      valueMethods ++ [.mBeginList, .mBeginObject] ∧
    (valueMethods.all fun m =>
      result .hAfterColonContext m == some .hPairContext) = true ∧
    result .hAfterColonContext .mBeginList = some .hValueContext ∧
    result .hAfterColonContext .mBeginObject = some .hPairContext ∧
    avail .hAfterColonContext .mWriteKey = false ∧
    avail .hAfterColonContext .mEndList = false ∧
    avail .hAfterColonContext .mEndObject = false ∧
    avail .hAfterColonContext .mStr = false := by
  decide

/-- C3 (counterexample): the handle layer does not make every
well-typed call sequence grammar-legal: `WriteInt` on a fresh writer
returns a `TValueContext`, whose surface offers `EndList`, yet that
very sequence fails the runtime grammar check (nothing is open). -/
theorem c3_welltyped_endList_fails_at_runtime :
    typedRun .hBuf [.mWriteInt, .mEndList] = some .hBuf ∧
    avail .hValueContext .mEndList = true ∧
    opOf .mWriteInt = some (.writeValue "0") ∧
    opOf .mEndList = some .endList ∧
    runOps [.writeValue "0", .endList] initState = none := by
  decide

/-- C3 (amended): the method surfaces are restricted exactly as
claimed — `TValueContext` offers the value-writing operations,
`EndList` and `Str` but not `WriteKey`; `TPairContext` offers the
`WriteKey` variants, `UnsafeWritePair` and `EndObject` but no
value-writing operations — and threading the restricted handles keeps
the writer state in the handle's invariant, so every modelled call
offered by a restricted handle except `EndList` passes the runtime
grammar check (key/value-position errors are impossible through the
handles); a well-typed mismatched `EndList` can still fail at runtime. -/
theorem c3_handle_surfaces_and_safety :
    (∀ m : Method, m ∈ allMethods) ∧
    allMethods.filter (fun m => avail .hValueContext m) =
      valueMethods ++ [.mBeginList, .mBeginObject, .mEndList, .mStr] ∧
    allMethods.filter (fun m => avail .hPairContext m) =
      [.mWriteKey, .mUnsafeWriteKey, .mCompatWriteKeyWithoutQuotes,
       .mUnsafeWritePair, .mEndObject] ∧
    (∀ (h : HandleKind) (s : WState) (m : Method) (op : Op)
        (h1 : HandleKind), h ≠ .hBuf → handleInv h s → avail h m = true →
      opOf m = some op → result h m = some h1 → m ≠ .mEndList →
      (step op s).err = none ∧ handleInv h1 (step op s).st) := by
  refine ⟨by intro m; cases m <;> simp [allMethods, valueMethods],
    by decide, by decide, ?_⟩
  intro h s m op h1 hne hinv hav hop hres hnel
  obtain ⟨stk, nc, nn⟩ := s
  cases h with
  | hBuf => exact absurd rfl hne
  | hValueContext =>
    rcases hinv with hd | hd <;>
    · rcases stk with - | ⟨e, rest⟩
      · simp at hd
      · simp only [List.head?_cons, Option.some.injEq] at hd
        subst hd
        cases m <;>
          first
            | exact absurd rfl hnel
            | exact absurd hav (fun hh => Bool.noConfusion hh)
            | exact Option.noConfusion hop
            | (simp only [opOf, Option.some.injEq] at hop
               simp only [result, valueWriterResult,
                 Option.some.injEq] at hres
               subst hop; subst hres
               simp [step, endValueStack, handleInv, commaToks])
  | hAfterColonContext =>
    obtain ⟨hd1, hd2⟩ := hinv
    rcases stk with - | ⟨e, rest⟩
    · simp at hd1
    · simp only [List.head?_cons, Option.some.injEq] at hd1
      subst hd1
      rcases rest with - | ⟨e2, rest2⟩
      · simp at hd2
      · simp only [List.tail_cons, List.head?_cons,
          Option.some.injEq] at hd2
        subst hd2
        cases m <;>
          first
            | exact absurd rfl hnel
            | exact absurd hav (fun hh => Bool.noConfusion hh)
            | exact Option.noConfusion hop
            | (simp only [opOf, Option.some.injEq] at hop
               simp only [result, valueWriterResult,
                 Option.some.injEq] at hres
               subst hop; subst hres
               simp [step, endValueStack, handleInv, commaToks])
  | hPairContext =>
    rcases stk with - | ⟨e, rest⟩
    · simp [handleInv] at hinv
    · simp only [handleInv, List.head?_cons, Option.some.injEq] at hinv
      subst hinv
      cases m <;>
        first
          | exact absurd rfl hnel
          | exact absurd hav (fun hh => Bool.noConfusion hh)
          | exact Option.noConfusion hop
          | (simp only [opOf, Option.some.injEq] at hop
             simp only [result, valueWriterResult,
               Option.some.injEq] at hres
             subst hop; subst hres
             simp [step, endValueStack, handleInv, commaToks])

/-- C3 (witness): the safety conjunct applied concretely — `WriteKey`
through a `TPairContext` held on an open object succeeds and yields the
after-colon invariant. -/
theorem c3_handle_surfaces_and_safety_witness :
    (step (.writeKey "k") ⟨[.JE_OBJECT, .JE_OUTER_SPACE], false, false⟩).err
        = none ∧
      handleInv .hAfterColonContext
        (step (.writeKey "k")
          ⟨[.JE_OBJECT, .JE_OUTER_SPACE], false, false⟩).st :=
  c3_handle_surfaces_and_safety.2.2.2 .hPairContext
    ⟨[.JE_OBJECT, .JE_OUTER_SPACE], false, false⟩ .mWriteKey
    (.writeKey "k") .hAfterColonContext (by decide) rfl rfl rfl rfl
    (by decide)

/-! ### The whole writer object: sink mode, configuration, snapshots -/

/-- Modelled from an external dependency (`util/string/cast.h`, absent
from src): the float-to-string formatting modes referenced by the
`WriteFloat`/`WriteDouble` default arguments. -/
inductive EFloatToStringMode : Type
  | PREC_AUTO
  | PREC_NDIGITS
  | PREC_POINT_DIGITS
  | PREC_POINT_DIGITS_STRIP_ZEROES
deriving DecidableEq, Repr

/-- Embedded from the source: `struct TBufState` (lines 37-41). -/
structure TBufState : Type where
  NeedComma : Bool
  NeedNewline : Bool
  Stack : List EJsonEntity
deriving DecidableEq, Repr

/-- The writer object: protocol state plus the fields fixed or settable
on `TBuf` — whether an external `stream` was supplied at construction,
the internal buffer contents (owned `TStringStream`, at token level),
and the configuration (`EscapeMode`, `IndentSpaces`,
`WriteNanAsString`). -/
structure TBufM : Type where
  st : WState
  external : Bool
  buf : List Tok
  escapeMode : EHtmlEscapeMode
  indentSpaces : Nat
  writeNanAsString : Bool
deriving DecidableEq, Repr

/-- Embedded from the source (line 45): the declared default value of
the constructor's `mode` argument. -/
def ctorDefaultMode : EHtmlEscapeMode := .HEM_DONT_ESCAPE_HTML

/-- Embedded from the source (line 45): the declared default value of
the constructor's `stream` argument (`nullptr`, modelled as `none`). -/
def ctorDefaultStream : Option Unit := none

/-- Modelled from the spec: the constructor — empty protocol state, the
internal buffer owned iff no external stream was supplied, indentation
off and NaN-as-string off by default (header comments, lines 74-85). -/
def TBufM.make (mode : EHtmlEscapeMode) (stream : Option Unit) : TBufM :=
  ⟨initState, stream.isSome, [], mode, 0, false⟩

/-- A `TBuf` constructed with no arguments. -/
def TBufM.makeDefault : TBufM := TBufM.make ctorDefaultMode ctorDefaultStream

/-- Embedded from the source (line 52): the declared defaults of
`WriteFloat(float f, EFloatToStringMode mode = PREC_NDIGITS,
int ndigits = 6)`. -/
def writeFloatDefaultMode : EFloatToStringMode := .PREC_NDIGITS

/-- Embedded from the source (line 52): see `writeFloatDefaultMode`. -/
def writeFloatDefaultNdigits : Nat := 6

/-- Embedded from the source (line 53): the declared defaults of
`WriteDouble(double f, EFloatToStringMode mode = PREC_NDIGITS,
int ndigits = 10)`. -/
def writeDoubleDefaultMode : EFloatToStringMode := .PREC_NDIGITS

/-- Embedded from the source (line 53): see `writeDoubleDefaultMode`. -/
def writeDoubleDefaultNdigits : Nat := 10

/-- C9: a no-argument `TBuf` defaults to `HEM_DONT_ESCAPE_HTML` and to
the internally owned buffer (`stream = nullptr`), and the declared
float-write defaults are `PREC_NDIGITS` with 6 digits for `WriteFloat`
and `PREC_NDIGITS` with 10 digits for `WriteDouble`. -/
theorem c9_declared_defaults :
    TBufM.makeDefault.escapeMode = .HEM_DONT_ESCAPE_HTML ∧
    TBufM.makeDefault.external = false ∧
    TBufM.makeDefault.st = initState ∧ TBufM.makeDefault.buf = [] ∧
    ctorDefaultMode = .HEM_DONT_ESCAPE_HTML ∧ ctorDefaultStream = none ∧
    writeFloatDefaultMode = .PREC_NDIGITS ∧ writeFloatDefaultNdigits = 6 ∧
    writeDoubleDefaultMode = .PREC_NDIGITS ∧
    writeDoubleDefaultNdigits = 10 := by
  decide

/-- Modelled from the spec: `State()` returns a copy of the writer's
protocol state `{NeedComma, NeedNewline, Stack}` (an owned value in the
model, where copies cannot alias). -/
def TBufM.State (b : TBufM) : TBufState :=
  ⟨b.st.needComma, b.st.needNewline, b.st.stack⟩

/-- Modelled from the spec: `Reset(from)` replaces exactly the writer's
stack and pending-separator flags with the snapshot. -/
def TBufM.Reset (b : TBufM) (fr : TBufState) : TBufM :=
  { b with st := ⟨fr.Stack, fr.NeedComma, fr.NeedNewline⟩ }

/-- C7: `State()` copies exactly `{pendingComma, pendingNewline, stack}`;
`Reset(state)` replaces exactly the writer's stack and pending flags
with the snapshot, performs no I/O and leaves the already-emitted
bytes, the sink mode and all configuration unchanged; restoring a
snapshot just taken is the identity.  (Aliasing is inexpressible in the
pure model: snapshots are owned values.) -/
theorem c7_state_reset_frame (b : TBufM) (fr : TBufState) :
    TBufM.State b = ⟨b.st.needComma, b.st.needNewline, b.st.stack⟩ ∧
    (TBufM.Reset b fr).st.stack = fr.Stack ∧
    (TBufM.Reset b fr).st.needComma = fr.NeedComma ∧
    (TBufM.Reset b fr).st.needNewline = fr.NeedNewline ∧
    (TBufM.Reset b fr).buf = b.buf ∧
    (TBufM.Reset b fr).external = b.external ∧
    (TBufM.Reset b fr).escapeMode = b.escapeMode ∧
    (TBufM.Reset b fr).indentSpaces = b.indentSpaces ∧
    (TBufM.Reset b fr).writeNanAsString = b.writeNanAsString ∧
    TBufM.Reset b (TBufM.State b) = b := by
  exact ⟨rfl, rfl, rfl, rfl, rfl, rfl, rfl, rfl, rfl, rfl⟩

/-- Modelled from the spec: `Str()` — valid only when the writer owns
its internal buffer (no external stream at construction); returns the
accumulated contents. -/
def TBufM.Str (b : TBufM) : Option (List Tok) :=
  if b.external then none else some b.buf

/-- Modelled from the spec: `FlushTo(stream)` — valid only when the
writer owns its internal buffer; moves the accumulated contents into
the given sink and resets the internal buffer to empty. -/
def TBufM.FlushTo (b : TBufM) (sink : List Tok) :
    Option (TBufM × List Tok) :=
  if b.external then none else some ({ b with buf := [] }, sink ++ b.buf)

/-- C8: `Str()` and `FlushTo(sink)` succeed exactly when no external
stream was supplied at construction; with an external stream both
fail; on success `FlushTo` appends the accumulated contents to the
sink and resets the internal buffer to empty, leaving the rest of the
writer unchanged. -/
theorem c8_str_flushTo_require_internal_buffer (b : TBufM)
    (sink : List Tok) :
    (b.external = true → TBufM.Str b = none ∧ TBufM.FlushTo b sink = none) ∧
    (b.external = false → TBufM.Str b = some b.buf ∧
      TBufM.FlushTo b sink = some ({ b with buf := [] }, sink ++ b.buf)) := by
  constructor <;> intro h <;> simp [TBufM.Str, TBufM.FlushTo, h]

/-- C8 (witness): applied to a writer constructed with an external
stream (both calls fail) and to one owning its buffer (both succeed). -/
theorem c8_str_flushTo_require_internal_buffer_witness :
    (TBufM.Str (TBufM.make .HEM_DONT_ESCAPE_HTML (some ())) = none ∧
      TBufM.FlushTo (TBufM.make .HEM_DONT_ESCAPE_HTML (some ())) [] = none) ∧
    (TBufM.Str (TBufM.make .HEM_DONT_ESCAPE_HTML none) = some [] ∧
      TBufM.FlushTo (TBufM.make .HEM_DONT_ESCAPE_HTML none) [] =
        some ({ TBufM.make .HEM_DONT_ESCAPE_HTML none with buf := [] },
          [] ++ [])) :=
  ⟨(c8_str_flushTo_require_internal_buffer
      (TBufM.make .HEM_DONT_ESCAPE_HTML (some ())) []).1 rfl,
    (c8_str_flushTo_require_internal_buffer
      (TBufM.make .HEM_DONT_ESCAPE_HTML none) []).2 rfl⟩

/-! ### Non-finite floating-point writes -/

/-- A floating-point argument, abstracted by finiteness: a finite value
carries its rendered decimal text; the non-finite values are `NaN`,
`+Inf`, `-Inf`. -/
inductive FloatValue : Type
  | finite (txt : String)
  | nan
  | posInf
  | negInf
deriving DecidableEq, Repr

/-- Whether the argument is a finite floating-point value. -/
def FloatValue.isFinite : FloatValue → Bool
  | .finite _ => true
  | _ => false

/-- Modelled from the spec: the engine's standard textual rendering of
the special values ("nan", "inf", "-inf"). -/
def renderFloat : FloatValue → String
  | .nan => "nan"
  | .posInf => "inf"
  | .negInf => "-inf"
  | .finite txt => txt

/-- Modelled from the spec: `WriteFloatImpl` — a finite value is written
as a number token; a non-finite value raises the protocol error when
`WriteNanAsString` is off, and is written as an ordinary quoted-string
value (same bookkeeping, writer continues normally) when it is on. -/
def writeFloatImpl (writeNanAsString : Bool) (v : FloatValue)
    (s : WState) : StepRes :=
  match v with
  | .finite txt => step (.writeValue txt) s
  | _ =>
    if writeNanAsString then
      step (.writeValue ("\"" ++ renderFloat v ++ "\"")) s
    else ⟨some .grammarError, s, []⟩

/-- C6: for every non-finite argument, `WriteFloat`/`WriteDouble` fails
with the grammar/protocol error (emitting nothing, state unchanged)
when `writeNanAsString` is off, and when it is on it behaves exactly
like writing an ordinary string value containing the standard rendering
in quotes ("nan", "inf", "-inf") — so the writer continues normally. -/
theorem c6_nonfinite_float_policy (w : Bool) (v : FloatValue) (s : WState)
    (h : v.isFinite = false) :
    (w = false → writeFloatImpl w v s = ⟨some .grammarError, s, []⟩) ∧
    (w = true → writeFloatImpl w v s =
      step (.writeValue ("\"" ++ renderFloat v ++ "\"")) s) := by
  cases v
  case finite t => exact absurd h (by simp [FloatValue.isFinite])
  all_goals
    exact ⟨fun hw => by subst hw; rfl, fun hw => by subst hw; rfl⟩

/-- C6 (witness): a NaN write with the policy off fails in place; with
the policy on it equals an ordinary write of the string `"nan"`. -/
theorem c6_nonfinite_float_policy_witness :
    writeFloatImpl false .nan initState =
        ⟨some .grammarError, initState, []⟩ ∧
      writeFloatImpl true .nan initState =
        step (.writeValue ("\"" ++ renderFloat .nan ++ "\"")) initState :=
  ⟨(c6_nonfinite_float_policy false .nan initState rfl).1 rfl,
    (c6_nonfinite_float_policy true .nan initState rfl).2 rfl⟩

/-! ### The escaping engine

Input strings are byte sequences (`List Nat`); the engine produces the
literal-body bytes of a JSON string under an `EHtmlEscapeMode`
(`EscapedWriteChar`/`WriteBareString`, modelled from spec 4.3 and the
enum comments).  Decoders for standard JSON string unescaping and for
the three HTML entities serve as the spec-side yardstick. -/

/-- Modelled from the spec: the short escape forms for the control
characters that have one (`\b \t \n \f \r`). -/
def shortEscape (c : Nat) : Option (List Nat) :=
  if c = 8 then some [92, 98]
  else if c = 9 then some [92, 116]
  else if c = 10 then some [92, 110]
  else if c = 12 then some [92, 102]
  else if c = 13 then some [92, 114]
  else none

/-- The ASCII code of a hexadecimal digit (uppercase letters). -/
def hexDigit (n : Nat) : Nat := if n < 10 then 48 + n else 55 + n

/-- Modelled from the spec: `WriteHexEscape` — the six bytes of
`\u00XX`. -/
def uEscape (c : Nat) : List Nat :=
  [92, 117, 48, 48, hexDigit (c / 16), hexDigit (c % 16)]

/-- Modelled from the spec: the HTML entities `&lt; &gt; &amp;`. -/
def htmlEntity (c : Nat) : List Nat :=
  if c = 60 then [38, 108, 116, 59]
  else if c = 62 then [38, 103, 116, 59]
  else [38, 97, 109, 112, 59]

/-- Modelled from the spec: `EscapedWriteChar` — the literal-body bytes
produced for one input byte: quote and backslash always escaped,
control characters as short forms or `\u00XX`, and `< > & /` per the
mode (enum comments, lines 25-28). -/
def escapeChar (hem : EHtmlEscapeMode) (c : Nat) : List Nat :=
  if c = 34 then [92, 34]
  else if c = 92 then [92, 92]
  else if c < 32 then
    match shortEscape c with
    | some e => e
    | none => uEscape c
  else if c = 60 ∨ c = 62 ∨ c = 38 then
    match hem with
    | .HEM_ESCAPE_HTML => htmlEntity c
    | .HEM_DONT_ESCAPE_HTML => uEscape c
    | .HEM_RELAXED => uEscape c
    | .HEM_UNSAFE => [c]
  else if c = 47 then
    match hem with
    | .HEM_ESCAPE_HTML => [92, 47]
    | .HEM_DONT_ESCAPE_HTML => [92, 47]
    | .HEM_RELAXED => [47]
    | .HEM_UNSAFE => [47]
  else [c]

/-- Modelled from the spec: `WriteBareString` — the literal body for a
whole byte string, one character at a time. -/
def escapeStr (hem : EHtmlEscapeMode) (s : List Nat) : List Nat :=
  s.flatMap (escapeChar hem)

/-- The numeric value of an ASCII hexadecimal digit. -/
def hexVal (c : Nat) : Option Nat :=
  if 48 ≤ c ∧ c ≤ 57 then some (c - 48)
  else if 65 ≤ c ∧ c ≤ 70 then some (c - 55)
  else if 97 ≤ c ∧ c ≤ 102 then some (c - 87)
  else none

/-- The byte denoted by a single-character JSON escape
(`\" \\ \/ \b \f \n \r \t`). -/
def simpleUnescape (e : Nat) : Option Nat :=
  if e = 34 then some 34
  else if e = 92 then some 92
  else if e = 47 then some 47
  else if e = 98 then some 8
  else if e = 102 then some 12
  else if e = 110 then some 10
  else if e = 114 then some 13
  else if e = 116 then some 9
  else none

/-- Standard JSON string-literal unescaping over bytes: backslash
escapes (single-character and `\uXXXX`) are decoded, everything else
passes through. -/
def unescapeJson : List Nat → Option (List Nat)
  | [] => some []
  | 92 :: 117 :: h1 :: h2 :: h3 :: h4 :: t =>
    match hexVal h1, hexVal h2, hexVal h3, hexVal h4 with
    | some a, some b, some c2, some d =>
      (unescapeJson t).map (fun r => (4096 * a + 256 * b + 16 * c2 + d) :: r)
    | _, _, _, _ => none
  | 92 :: e :: t =>
    match simpleUnescape e with
    | some d => (unescapeJson t).map (fun r => d :: r)
    | none => none
  | [92] => none
  | c :: t => (unescapeJson t).map (fun r => c :: r)

/-- HTML entity decoding for the three entities the engine emits. -/
def htmlDecode : List Nat → List Nat
  | 38 :: 108 :: 116 :: 59 :: t1 => 60 :: htmlDecode t1
  | 38 :: 103 :: 116 :: 59 :: t1 => 62 :: htmlDecode t1
  | 38 :: 97 :: 109 :: 112 :: 59 :: t1 => 38 :: htmlDecode t1
  | c :: t => c :: htmlDecode t
  | [] => []

/-- Decoding a produced literal body: HTML entity decoding first under
`HEM_ESCAPE_HTML`, then standard JSON string unescaping. -/
def decodeLit (hem : EHtmlEscapeMode) (l : List Nat) : Option (List Nat) :=
  unescapeJson (if hem = .HEM_ESCAPE_HTML then htmlDecode l else l)

theorem unescapeJson_cons_ne (c : Nat) (t : List Nat) (h : ¬c = 92) :
    unescapeJson (c :: t) = (unescapeJson t).map (fun r => c :: r) := by
  simp [unescapeJson, h]

theorem htmlDecode_cons_ne (c : Nat) (t : List Nat) (h : ¬c = 38) :
    htmlDecode (c :: t) = c :: htmlDecode t := by
  simp [htmlDecode, h]

theorem htmlDecode_append_no38 (l t : List Nat)
    (h : ∀ b ∈ l, ¬b = 38) : htmlDecode (l ++ t) = l ++ htmlDecode t := by
  induction l with
  | nil => simp
  | cons a l ih =>
    simp only [List.cons_append]
    rw [htmlDecode_cons_ne a _ (h a (by simp)),
      ih (fun b hb => h b (by simp [hb]))]

theorem hexDigit_ne38 (n : Nat) : ¬hexDigit n = 38 := by
  unfold hexDigit; split_ifs <;> omega

theorem hexVal_hexDigit (n : Nat) (h : n < 16) :
    hexVal (hexDigit n) = some n := by
  unfold hexVal hexDigit
  split_ifs <;> first
    | (simp only [Option.some.injEq]; omega)
    | (exfalso; omega)

theorem unescape_uEscape (c : Nat) (h : c < 256) (ts : List Nat) :
    unescapeJson (uEscape c ++ ts) =
      (unescapeJson ts).map (fun r => c :: r) := by
  have h1 : c / 16 < 16 := by omega
  have h2 : c % 16 < 16 := by omega
  have hv0 : hexVal 48 = some 0 := by decide
  simp only [uEscape, List.cons_append, List.nil_append, unescapeJson,
    hexVal_hexDigit _ h1, hexVal_hexDigit _ h2, hv0]
  have hc : 4096 * 0 + 256 * 0 + 16 * (c / 16) + c % 16 = c := by omega
  simp only [hc]
  rfl

/-- The literal-body chunk for one character as the JSON unescaper sees
it — under `HEM_ESCAPE_HTML`, after the entity-decoding pass (which
turns the three entities back into raw `< > &`). -/
def jsonChunk (hem : EHtmlEscapeMode) (c : Nat) : List Nat :=
  if hem = .HEM_ESCAPE_HTML ∧ (c = 60 ∨ c = 62 ∨ c = 38) then [c]
  else escapeChar hem c

theorem jsonChunk_decode (hem : EHtmlEscapeMode) (c : Nat) (ts : List Nat) :
    unescapeJson (jsonChunk hem c ++ ts) =
      (unescapeJson ts).map (fun r => c :: r) := by
  by_cases hh : hem = .HEM_ESCAPE_HTML ∧ (c = 60 ∨ c = 62 ∨ c = 38)
  · rw [show jsonChunk hem c = [c] from by simp [jsonChunk, hh]]
    have hc : ¬c = 92 := by rcases hh.2 with h | h | h <;> omega
    simpa using unescapeJson_cons_ne c ts hc
  · rw [show jsonChunk hem c = escapeChar hem c from by simp [jsonChunk, hh]]
    by_cases h34 : c = 34
    · subst h34; rfl
    by_cases h92 : c = 92
    · subst h92; rfl
    by_cases hctl : c < 32
    · rw [show escapeChar hem c =
          (match shortEscape c with
            | some e => e
            | none => uEscape c) from by simp [escapeChar, h34, h92, hctl]]
      by_cases h8 : c = 8
      · subst h8; rfl
      by_cases h9 : c = 9
      · subst h9; rfl
      by_cases h10c : c = 10
      · subst h10c; rfl
      by_cases h12 : c = 12
      · subst h12; rfl
      by_cases h13 : c = 13
      · subst h13; rfl
      rw [show (match shortEscape c with
            | some e => e
            | none => uEscape c) = uEscape c from by
        simp [shortEscape, h8, h9, h10c, h12, h13]]
      exact unescape_uEscape c (by omega) ts
    by_cases hspec : c = 60 ∨ c = 62 ∨ c = 38
    · rcases hspec with rfl | rfl | rfl <;> cases hem <;>
        first
          | rfl
          | exact absurd ⟨rfl, by simp⟩ hh
    by_cases h47 : c = 47
    · subst h47; cases hem <;> rfl
    · rw [show escapeChar hem c = [c] from by
        simp [escapeChar, h34, h92, hctl, hspec, h47]]
      simpa using unescapeJson_cons_ne c ts h92

theorem escapeChar_no38 (hem : EHtmlEscapeMode) (c : Nat) (h60 : ¬c = 60)
    (h62 : ¬c = 62) (h38 : ¬c = 38) :
    ∀ b ∈ escapeChar hem c, ¬b = 38 := by
  intro b hb
  unfold escapeChar at hb
  split_ifs at hb with h34 h92 hctl hspec h47
  · rcases (by simpa using hb : b = 92 ∨ b = 34) with rfl | rfl <;> decide
  · rcases (by simpa using hb : b = 92 ∨ b = 92) with rfl | rfl <;> decide
  · rcases hsc : shortEscape c with - | e
    · rw [hsc] at hb
      rcases (by simpa [uEscape] using hb :
          b = 92 ∨ b = 117 ∨ b = 48 ∨ b = hexDigit (c / 16) ∨
            b = hexDigit (c % 16)) with rfl | rfl | rfl | rfl | rfl
      · decide
      · decide
      · decide
      · exact hexDigit_ne38 _
      · exact hexDigit_ne38 _
    · rw [hsc] at hb
      unfold shortEscape at hsc
      split_ifs at hsc <;>
        first
          | exact Option.noConfusion hsc
          | (injection hsc with h
             subst h
             rcases (by simpa using hb : b = 92 ∨ _) with rfl | h2 <;>
               simp_all)
  · exact absurd hspec (by rintro (h | h | h) <;> omega)
  · cases hem <;>
      rcases (by simpa using hb : _) with rfl | rfl <;> decide
  · rcases (by simpa using hb : b = c) with rfl
    exact h38

theorem htmlDecode_escapeStr (s : List Nat) :
    htmlDecode (escapeStr .HEM_ESCAPE_HTML s) =
      s.flatMap (jsonChunk .HEM_ESCAPE_HTML) := by
  induction s with
  | nil => rfl
  | cons c s ih =>
    simp only [escapeStr, List.flatMap_cons] at ih ⊢
    by_cases hspec : c = 60 ∨ c = 62 ∨ c = 38
    · rw [show jsonChunk .HEM_ESCAPE_HTML c = [c] from by
        simp [jsonChunk, hspec]]
      rcases hspec with rfl | rfl | rfl
      · rw [show htmlDecode
            (escapeChar .HEM_ESCAPE_HTML 60 ++
              s.flatMap (escapeChar .HEM_ESCAPE_HTML)) =
            60 :: htmlDecode (s.flatMap (escapeChar .HEM_ESCAPE_HTML))
          from rfl, ih]
        rfl
      · rw [show htmlDecode
            (escapeChar .HEM_ESCAPE_HTML 62 ++
              s.flatMap (escapeChar .HEM_ESCAPE_HTML)) =
            62 :: htmlDecode (s.flatMap (escapeChar .HEM_ESCAPE_HTML))
          from rfl, ih]
        rfl
      · rw [show htmlDecode
            (escapeChar .HEM_ESCAPE_HTML 38 ++
              s.flatMap (escapeChar .HEM_ESCAPE_HTML)) =
            38 :: htmlDecode (s.flatMap (escapeChar .HEM_ESCAPE_HTML))
          from rfl, ih]
        rfl
    · have hno : ∀ b ∈ escapeChar .HEM_ESCAPE_HTML c, ¬b = 38 := by
        refine escapeChar_no38 _ c ?_ ?_ ?_ <;>
          intro h <;> exact hspec (by simp [h])
      rw [htmlDecode_append_no38 _ _ hno, ih,
        show jsonChunk .HEM_ESCAPE_HTML c = escapeChar .HEM_ESCAPE_HTML c
          from by simp [jsonChunk, hspec]]

theorem unescape_flatMap_jsonChunk (hem : EHtmlEscapeMode)
    (s : List Nat) :
    unescapeJson (s.flatMap (jsonChunk hem)) = some s := by
  induction s with
  | nil => rfl
  | cons c s ih =>
    rw [List.flatMap_cons, jsonChunk_decode hem c _, ih]
    rfl

/-- C5: for every input byte string and every escape mode, decoding the
literal body produced by the escaping engine — entity decoding first
under HTML-escape mode, then standard JSON string unescaping — yields
exactly the original bytes; and per mode, `< > &` become the HTML
entities with `/` as `\/` under `HEM_ESCAPE_HTML`, become
`<`/`>`/`&` with `/` as `\/` under
`HEM_DONT_ESCAPE_HTML`, the same `\u00XX` forms with `/` raw under
`HEM_RELAXED`, and all four raw under `HEM_UNSAFE`, while quote,
backslash and control characters are escaped under every mode. -/
theorem c5_escape_roundtrip_and_mode_table (s : List Nat)
    (hem : EHtmlEscapeMode) :
    decodeLit hem (escapeStr hem s) = some s ∧
    (escapeChar .HEM_ESCAPE_HTML 60 = [38, 108, 116, 59] ∧
     escapeChar .HEM_ESCAPE_HTML 62 = [38, 103, 116, 59] ∧
     escapeChar .HEM_ESCAPE_HTML 38 = [38, 97, 109, 112, 59] ∧
     escapeChar .HEM_ESCAPE_HTML 47 = [92, 47] ∧
     escapeChar .HEM_DONT_ESCAPE_HTML 60 = [92, 117, 48, 48, 51, 67] ∧
     escapeChar .HEM_DONT_ESCAPE_HTML 62 = [92, 117, 48, 48, 51, 69] ∧
     escapeChar .HEM_DONT_ESCAPE_HTML 38 = [92, 117, 48, 48, 50, 54] ∧
     escapeChar .HEM_DONT_ESCAPE_HTML 47 = [92, 47] ∧
     escapeChar .HEM_RELAXED 60 = [92, 117, 48, 48, 51, 67] ∧
     escapeChar .HEM_RELAXED 62 = [92, 117, 48, 48, 51, 69] ∧
     escapeChar .HEM_RELAXED 38 = [92, 117, 48, 48, 50, 54] ∧
     escapeChar .HEM_RELAXED 47 = [47] ∧
     escapeChar .HEM_UNSAFE 60 = [60] ∧
     escapeChar .HEM_UNSAFE 62 = [62] ∧
     escapeChar .HEM_UNSAFE 38 = [38] ∧
     escapeChar .HEM_UNSAFE 47 = [47]) ∧
    (∀ m : EHtmlEscapeMode,
      escapeChar m 34 = [92, 34] ∧ escapeChar m 92 = [92, 92]) ∧
    (∀ (m : EHtmlEscapeMode) (c : Nat), c < 32 →
      (escapeChar m c).head? = some 92 ∧ 2 ≤ (escapeChar m c).length) := by
  refine ⟨?_, by decide, fun m => ⟨rfl, rfl⟩, ?_⟩
  · unfold decodeLit
    by_cases hh : hem = .HEM_ESCAPE_HTML
    · subst hh
      rw [if_pos rfl, htmlDecode_escapeStr]
      exact unescape_flatMap_jsonChunk _ s
    · rw [if_neg hh]
      have hsame : escapeStr hem s = s.flatMap (jsonChunk hem) := by
        unfold escapeStr
        congr 1
        funext c
        simp [jsonChunk, hh]
      rw [hsame]
      exact unescape_flatMap_jsonChunk hem s
  · intro m c hc
    have h34 : ¬c = 34 := by omega
    have h92 : ¬c = 92 := by omega
    rw [show escapeChar m c =
        (match shortEscape c with
          | some e => e
          | none => uEscape c) from by simp [escapeChar, h34, h92, hc]]
    rcases hsc : shortEscape c with - | e
    · exact ⟨rfl, by simp [uEscape]⟩
    · unfold shortEscape at hsc
      split_ifs at hsc <;>
        first
          | exact Option.noConfusion hsc
          | (injection hsc with h
             subst h
             exact ⟨rfl, by simp⟩)

/-- C5 (witness): a concrete HTML-mode round trip over
`< a > & " \r /`, and the control-character conjunct applied at `NUL`
under `HEM_UNSAFE`. -/
theorem c5_escape_roundtrip_and_mode_table_witness :
    decodeLit .HEM_ESCAPE_HTML
        (escapeStr .HEM_ESCAPE_HTML [60, 97, 62, 38, 34, 13, 47]) =
      some [60, 97, 62, 38, 34, 13, 47] ∧
    ((escapeChar .HEM_UNSAFE 0).head? = some 92 ∧
      2 ≤ (escapeChar .HEM_UNSAFE 0).length) :=
  ⟨(c5_escape_roundtrip_and_mode_table [60, 97, 62, 38, 34, 13, 47]
      .HEM_ESCAPE_HTML).1,
    (c5_escape_roundtrip_and_mode_table [] .HEM_UNSAFE).2.2.2
      .HEM_UNSAFE 0 (by decide)⟩

end NJsonWriter
